import Mathlib

/-!
Verification of the installer-discovery core of the gog-games-browser repository.

The Python sources are shallowly embedded here:
* strings are modelled as `List Char` (`Str`);
* `scanner.py` (`_sanitize_key`, `_display_name_from_path`, `_is_first_rar_part`,
  `_scan_direct`, `_scan_rar`, `_scan_rar_files`, `scan_installers`) becomes pure
  functions over an explicit filesystem model `FsTree`;
* `scan_flow.py` (`run_scan`) becomes a pure function over a `ScanEnv` that
  packages the discovery result, the previous snapshot and the outcome of each
  metadata fetch;
* `metadata.py` (`get_game_dir`, `save_override`, `load_override`) becomes pure
  functions over an association-list file store.
-/

namespace GogBrowser

/-- Strings are modelled as lists of characters. -/
abbrev Str := List Char

/-- Python `s.replace(c, "_")` for a single character `c` (as used in
`_sanitize_key`: every pattern replaced there is a single character). -/
def pyReplaceChar (c : Char) (s : Str) : Str :=
  s.map fun x => if x = c then '_' else x

/-- The path-separator replacements of `_sanitize_key` and of the inner-path
branch: `.replace("\\", "_").replace("/", "_")`. -/
def sanitizeSeps (s : Str) : Str :=
  pyReplaceChar '/' (pyReplaceChar '\\' s)

/-- The reserved characters of scanner.py line 33: the loop `for c in ':*?"<>|'`. -/
def reservedChars : Str := ":*?\"<>|".toList

/-- The reserved-character replacement loop of `_sanitize_key`. -/
def sanitizeReserved (s : Str) : Str :=
  reservedChars.foldl (fun acc c => pyReplaceChar c acc) s

/-- Python `s.strip(ch)` for a single strip character: drop the character from
both ends.  Implemented as right strip (through `reverse`) followed by left
strip; the two orders agree. -/
def pyStripWith (p : Char → Bool) (l : Str) : Str :=
  ((l.reverse.dropWhile p).reverse).dropWhile p

/-- `key.strip("_")` from `_sanitize_key`. -/
def stripUnderscores (l : Str) : Str :=
  pyStripWith (fun c => c = '_') l

/-- The final step of `_sanitize_key`: `key.strip("_") or "unknown"`. -/
def finishKey (l : Str) : Str :=
  if stripUnderscores l = [] then "unknown".toList else stripUnderscores l

/-- scanner.py `_sanitize_key(relative_path, internal)`.  Note the source
sanitizes the relative path for separators and reserved characters, but the
inner path only for separators; Python's `if internal:` treats both `None` and
the empty string as absent. -/
def sanitize_key (relative_path : Str) (internal : Option Str) : Str :=
  let key := sanitizeReserved (sanitizeSeps relative_path)
  let key :=
    match internal with
    | some s => if s ≠ [] then key ++ '_' :: sanitizeSeps s else key
    | none => key
  finishKey key

/-- The reference key-derivation algorithm exactly as the spec states it in
section 4.1: the inner path, when present, receives the same character
sanitization as the relative path — separators and the reserved characters.
Written only to be compared against the source's `sanitize_key`. -/
def deriveKey_spec (relative_path : Str) (internal : Option Str) : Str :=
  let key := sanitizeReserved (sanitizeSeps relative_path)
  let key :=
    match internal with
    | some s => key ++ '_' :: sanitizeReserved (sanitizeSeps s)
    | none => key
  finishKey key

/-- The character class `[A-Za-z0-9._-]` named by the spec for keys. -/
def isAllowedKeyChar (c : Char) : Bool :=
  ('A' ≤ c && c ≤ 'Z') || ('a' ≤ c && c ≤ 'z') || ('0' ≤ c && c ≤ '9') ||
    c == '.' || c == '_' || c == '-'

/-- Decidable form of "the optional inner path contains no reserved character". -/
def innerUnreserved : Option Str → Bool
  | some s => s.all fun c => !(reservedChars.contains c)
  | none => true

/-- Python `str.lower` on the ASCII range (all names appearing in the sources
are matched case-insensitively through lowercasing). -/
def lowerL (l : Str) : Str := l.map Char.toLower

/-- Index of the last occurrence of a character, Python `name.rfind(c)`
(`none` when absent, where Python returns `-1`). -/
def rfindIdx (c : Char) (l : Str) : Option Nat :=
  match l.reverse.findIdx? (fun x => x = c) with
  | some j => some (l.length - 1 - j)
  | none => none

/-- `pathlib.PurePath.stem` of a file name: the name without its last suffix.
CPython: with `i = name.rfind(".")`, return `name[:i]` when `0 < i < len - 1`,
else the whole name. -/
def pyStem (name : Str) : Str :=
  match rfindIdx '.' name with
  | some i => if 0 < i ∧ i < name.length - 1 then name.take i else name
  | none => name

/-- `pathlib.PurePath.suffix` of a file name: `name[i:]` when
`0 < i < len - 1` for `i = name.rfind(".")`, else the empty string. -/
def pySuffix (name : Str) : Str :=
  match rfindIdx '.' name with
  | some i => if 0 < i ∧ i < name.length - 1 then name.drop i else []
  | none => []

/-- Digit-string value, Python `int(m.group(1))` for a `\d+` capture. -/
def digitsVal (ds : Str) : Nat :=
  ds.foldl (fun a c => a * 10 + (c.toNat - 48)) 0

/-- The capture of `re.search(r"\.part(\d+)\.rar$", name, re.IGNORECASE)`:
`some ds` with the digit run when the name ends in a part-volume marker
followed by the rar extension, else `none`.  Parsed from the right: the
reversed name must start with the reverse of a case variant of ".rar", then a
nonempty digit run, then the reverse of a case variant of ".part". -/
def partNumDigits (name : Str) : Option Str :=
  let rev := name.reverse
  if lowerL (rev.take 4) = ".rar".toList.reverse then
    let rest := rev.drop 4
    let ds := rest.takeWhile Char.isDigit
    if ds ≠ [] ∧ lowerL ((rest.drop ds.length).take 5) = ".part".toList.reverse then
      some ds.reverse
    else none
  else none

/-- `PART_RAR_PATTERN.search(name)` as a Boolean:
the pattern is `\.part\d+\.rar$` with `re.IGNORECASE`. -/
def partRarSearch (name : Str) : Bool :=
  (partNumDigits name).isSome

/-- `re.sub(r"\.part\d+$", "", stem, flags=re.IGNORECASE)`: strip a trailing
part-volume marker from a stem, if present. -/
def stripPartNumSuffix (stem : Str) : Str :=
  let rev := stem.reverse
  let ds := rev.takeWhile Char.isDigit
  if ds ≠ [] ∧ lowerL ((rev.drop ds.length).take 5) = ".part".toList.reverse then
    (rev.drop (ds.length + 5)).reverse
  else stem

/-- `SETUP_PATTERN` body: the anchored regex `setup_.*\.exe` over an already
lowercased name, where `.` does not match a newline: the name decomposes as
the six characters of the prefix, a newline-free middle, and the four
characters of the extension. -/
def setupCore (l : Str) : Bool :=
  decide (10 ≤ l.length) && List.isPrefixOf ("setup_".toList) l &&
    List.isSuffixOf (".exe".toList) l &&
    ((l.drop 6).take (l.length - 10)).all fun c => c ≠ '\n'

/-- `SETUP_PATTERN.match(name)` as a Boolean: `^setup_.*\.exe$` with
`re.IGNORECASE`; `$` also matches just before a final newline. -/
def setupMatches (s : Str) : Bool :=
  let l := lowerL s
  setupCore l || ((l.getLast?.map fun c => c == '\n').getD false && setupCore l.dropLast)

/-- `name.replace("_", " ")` as used when deriving display names. -/
def underscoresToSpaces (s : Str) : Str :=
  s.map fun c => if c = '_' then ' ' else c

/-- Python `str.isspace`-relevant set for `str.strip()` (ASCII whitespace;
Python also strips some Unicode whitespace, which no source input uses). -/
def pyIsSpace (c : Char) : Bool :=
  c == ' ' || c == '\t' || c == '\n' || c == '\r' || c == '\x0b' || c == '\x0c'

/-- Python `s.strip()`. -/
def pyStrip (s : Str) : Str := pyStripWith pyIsSpace s

/-- The standalone branch of `_display_name_from_path` (scanner.py lines
48-52): parent-folder name when nonempty — note: no emptiness fallback after
the replace and strip — else the stem with the `"Unknown"` fallback. -/
def display_direct (parentNm name : Str) : Str :=
  if parentNm ≠ [] then pyStrip (underscoresToSpaces parentNm)
  else
    let r := pyStrip (underscoresToSpaces (pyStem name))
    if r = [] then "Unknown".toList else r

/-- scanner.py `_display_name_from_path(fs_path, internal_path)`.  The path
argument is represented by the two pieces the source reads from it: the name
of its immediate parent directory (`fs_path.parent.name`) and its own file
name (`fs_path.name`; `fs_path.stem` is derived from it).  Python's
`if internal_path:` treats `None` and the empty string alike. -/
def display_name_from_path (parentNm : Str) (name : Str) (internal : Option Str) : Str :=
  match internal with
  | some s =>
    if s ≠ [] then
      let stem := pyStem name
      let stem := if partRarSearch name then stripPartNumSuffix stem else stem
      let r := pyStrip (underscoresToSpaces stem)
      if r = [] then name else r
    else display_direct parentNm name
  | none => display_direct parentNm name

/-- scanner.py `RAR_EXT` check plus `_is_first_rar_part(path)`: the suffix must
be the rar extension (case-insensitively; the additional
`path.name.lower().endswith(RAR_EXT)` test of line 77 is implied), and when the
name carries a part-volume marker its number must parse to 1. -/
def is_first_rar_part (name : Str) : Bool :=
  if lowerL (pySuffix name) = ".rar".toList && List.isSuffixOf (".rar".toList) (lowerL name) then
    match partNumDigits name with
    | some ds => digitsVal ds == 1
    | none => true
  else false

/-- A regular file under the scan root: the directory components of its
location relative to the root, and its file name.  `rglob` also yields
directories, which line 58 filters out with `is_file`; the model holds the
regular files only, in traversal order. -/
structure FsFile where
  dir : List Str
  name : Str
deriving DecidableEq

/-- `str(path.relative_to(root))`: the components joined by the separator.
Every walked file lies under the root, so the `relative_to` call of the source
never raises here; with Windows separators the sanitized key is unchanged
since both separator characters are folded to the underscore. -/
def relString (f : FsFile) : Str :=
  List.intercalate "/".toList (f.dir ++ [f.name])

/-- `path.parent.name`: the last directory component, or the scan root's own
name for a file lying directly in the root. -/
def parentNameIn (rootName : Str) (f : FsFile) : Str :=
  match f.dir.getLast? with
  | some d => d
  | none => rootName

/-- A scan root: its own name, its regular files in traversal order, whether
the rarfile backend imported (scanner.py lines 8-11), and for each file the
outcome of opening it as an archive — `none` when `rarfile.RarFile` raises,
`some none` when `namelist()` raises, `some (some names)` on success. -/
structure FsTree where
  rootName : Str
  files : List FsFile
  backend : Bool
  openRes : FsFile → Option (Option (List Str))

/-- One discovered installer, scanner.py `InstallerEntry`. -/
structure InstallerEntry where
  key : Str
  path_type : Str
  fs_path : FsFile
  internal_path : Option Str
  display_name : Str
deriving DecidableEq

/-- `name.replace("\\", "/").split("/")[-1]` from scanner.py line 99: the part
of the name after its last separator of either kind. -/
def lastSegment (name : Str) : Str :=
  let unified := name.map fun c => if c = '\\' then '/' else c
  (unified.reverse.takeWhile fun c => c ≠ '/').reverse

/-- The entry `_scan_rar` yields for one archive member name, `none` when the
member's last segment does not match `SETUP_PATTERN`. -/
def rarEntryOf (rootName : Str) (rar : FsFile) (nm : Str) : Option InstallerEntry :=
  if setupMatches (lastSegment nm) then
    some { key := sanitize_key (relString rar) (some nm)
           path_type := "rar".toList
           fs_path := rar
           internal_path := some nm
           display_name := display_name_from_path (parentNameIn rootName rar) rar.name (some nm) }
  else none

/-- scanner.py `_scan_rar(root, rar_path)`: empty when the backend is missing,
when opening raises, or when `namelist()` raises; otherwise the matching
member entries. -/
def scan_rar (rootName : Str) (backend : Bool) (openRes : Option (Option (List Str)))
    (rar : FsFile) : List InstallerEntry :=
  if !backend then []
  else
    match openRes with
    | none => []
    | some none => []
    | some (some names) => names.filterMap (rarEntryOf rootName rar)

/-- scanner.py `_scan_direct(root)`: the standalone entries, one per file whose
name matches `SETUP_PATTERN`. -/
def scan_direct (t : FsTree) : List InstallerEntry :=
  t.files.filterMap fun f =>
    if setupMatches f.name then
      some { key := sanitize_key (relString f) none
             path_type := "file".toList
             fs_path := f
             internal_path := none
             display_name := display_name_from_path (parentNameIn t.rootName f) f.name none }
    else none

/-- The logical archive-group base of scanner.py lines 127-129: the stem, with
a part-volume marker stripped when the full name matches `PART_RAR_PATTERN`. -/
def strippedBase (name : Str) : Str :=
  let stem := pyStem name
  if partRarSearch name then stripPartNumSuffix stem else stem

/-- The loop body of `_scan_rar_files` with its `seen_bases` accumulator. -/
def scan_rar_files_go (t : FsTree) : List FsFile → List Str → List InstallerEntry
  | [], _ => []
  | f :: fs, seen =>
    if lowerL (pySuffix f.name) = ".rar".toList then
      if is_first_rar_part f.name then
        if strippedBase f.name ∈ seen then scan_rar_files_go t fs seen
        else scan_rar t.rootName t.backend (t.openRes f) f ++
          scan_rar_files_go t fs (strippedBase f.name :: seen)
      else scan_rar_files_go t fs seen
    else scan_rar_files_go t fs seen

/-- scanner.py `_scan_rar_files(root)`. -/
def scan_rar_files (t : FsTree) : List InstallerEntry :=
  scan_rar_files_go t t.files []

/-- The archives whose contents `_scan_rar_files` actually lists: the files
reaching the `seen_bases.add` line.  Same control flow as
`scan_rar_files_go`, recording the file instead of its member entries. -/
def processed_rars_go : List FsFile → List Str → List FsFile
  | [], _ => []
  | f :: fs, seen =>
    if lowerL (pySuffix f.name) = ".rar".toList then
      if is_first_rar_part f.name then
        if strippedBase f.name ∈ seen then processed_rars_go fs seen
        else f :: processed_rars_go fs (strippedBase f.name :: seen)
      else processed_rars_go fs seen
    else processed_rars_go fs seen

/-- The archives a full pass over the tree opens and lists. -/
def processed_rars (t : FsTree) : List FsFile :=
  processed_rars_go t.files []

/-- The `seen_keys` de-duplication of `scan_installers`: first entry with a
given key wins. -/
def dedupe_by_key : List InstallerEntry → List Str → List InstallerEntry
  | [], _ => []
  | e :: es, seen =>
    if e.key ∈ seen then dedupe_by_key es seen
    else e :: dedupe_by_key es (e.key :: seen)

/-- scanner.py `scan_installers(installer_root)` over an existing root
directory (for a missing or non-directory root the source returns the empty
list before any traversal): direct entries first, then archive entries,
de-duplicated by key. -/
def scan_installers (t : FsTree) : List InstallerEntry :=
  dedupe_by_key (scan_direct t ++ scan_rar_files t) []

/-! ## scan_flow.py: the orchestrator -/

/-- The outcome of scan_flow.py line 91, `await resolve_and_save(...)` for one
added key: a truthy game dict with its optional title, a falsy result, or a
raised exception with its message.  The search-name and product-id override
lookups feeding the call are absorbed into the per-key outcome. -/
inductive FetchOutcome where
  | found (title : Option Str)
  | noMatch
  | exc (msg : Str)
deriving DecidableEq

/-- One element of the orchestrator's `errors` list; the source formats these
as the strings of scan_flow.py lines 101 and 105. -/
inductive ScanError where
  | noMatch (key : Str)
  | failed (key : Str) (msg : Str)
deriving DecidableEq

/-- The inputs of one `run_scan` call: the discovery result, the previous
snapshot's key list, and the metadata-fetch outcome per key. -/
structure ScanEnv where
  entries : List InstallerEntry
  prev_keys : List Str
  fetch : Str → FetchOutcome

/-- `current_keys = {e.key for e in entries}` as a duplicate-free list. -/
def current_keys (env : ScanEnv) : List Str :=
  (env.entries.map fun e => e.key).dedup

/-- `added_keys = current_keys - prev_keys` (scan_flow.py line 67), as the
current keys absent from the previous snapshot. -/
def added_keys (env : ScanEnv) : List Str :=
  (current_keys env).filter fun k => k ∉ env.prev_keys

/-- `removed_keys = prev_keys - current_keys` (scan_flow.py line 68). -/
def removed_keys (env : ScanEnv) : List Str :=
  env.prev_keys.dedup.filter fun k => k ∉ current_keys env

/-- `entry_by_key.get(key)`: the dict comprehension of line 70 keeps the last
entry for a key, so look from the rear. -/
def entry_by_key (entries : List InstallerEntry) (k : Str) : Option InstallerEntry :=
  entries.reverse.find? fun e => decide (e.key = k)

/-- `game.get("title") or entry.display_name` (scan_flow.py line 99). -/
def fetched_title (e : InstallerEntry) : Option Str → Str
  | some t => if t = [] then e.display_name else t
  | none => e.display_name

/-- The body of the added-keys loop for one entry: the appended new-game
names, the appended errors, and the keys whose override file was written.
In every branch of the source — success, falsy result, and exception —
`save_override` runs. -/
def step_added (fetch : Str → FetchOutcome) (e : InstallerEntry) :
    List Str × List ScanError × List Str :=
  match fetch e.key with
  | .found title => ([fetched_title e title], [], [e.key])
  | .noMatch => ([], [.noMatch e.key], [e.key])
  | .exc m => ([], [.failed e.key m], [e.key])

/-- The entries the added-keys loop actually processes (keys without an entry
hit the `continue` of line 79). -/
def added_entries (env : ScanEnv) : List InstallerEntry :=
  (added_keys env).filterMap fun k => entry_by_key env.entries k

/-- The whole added-keys loop, accumulating names, errors and saved
overrides. -/
def run_added_loop (fetch : Str → FetchOutcome) : List InstallerEntry →
    List Str × List ScanError × List Str
  | [] => ([], [], [])
  | e :: es =>
    let r := step_added fetch e
    let rest := run_added_loop fetch es
    (r.1 ++ rest.1, r.2.1 ++ rest.2.1, r.2.2 ++ rest.2.2)

/-- What one `run_scan` call produces and persists: the Discord notifications
are fire-and-forget side channels and the store contents are tracked by the
keys written, which is what the claims consult. -/
structure ScanOutcome where
  new_game_names : List Str
  errors : List ScanError
  overrides_saved : List Str
  snapshot_keys : List Str
  summary_added : Nat
  summary_removed : Nat
  summary_total : Nat

/-- scan_flow.py `run_scan`: discovery, diff, the added-keys fetch loop, the
bookkeeping loop over all current keys (lines 116-126), the unconditional
`save_scan_state` with the full current key list (line 128), and the summary
counts. -/
def run_scan (env : ScanEnv) : ScanOutcome :=
  let cur := current_keys env
  let loopRes := run_added_loop env.fetch (added_entries env)
  let bookkeeping := cur.filter fun k => (entry_by_key env.entries k).isSome
  { new_game_names := loopRes.1
    errors := loopRes.2.1
    overrides_saved := loopRes.2.2 ++ bookkeeping
    snapshot_keys := cur
    summary_added := (added_keys env).length
    summary_removed := (removed_keys env).length
    summary_total := cur.length }

/-- The Snapshot Differ (scan_flow.py lines 67-68) on key sets: both
components are plain set differences. -/
def diff (currentKeys previousKeys : Finset Str) : Finset Str × Finset Str :=
  (currentKeys \ previousKeys, previousKeys \ currentKeys)

/-! ## metadata.py: the per-key override store -/

/-- metadata.py `get_game_dir`: `safe_key` keeps alphanumeric characters and
`._-`, replacing everything else with an underscore.  The model restricts
Python's Unicode `str.isalnum` to its ASCII behavior, `Char.isAlphanum`. -/
def safe_key (game_key : Str) : Str :=
  game_key.map fun c => if c.isAlphanum || c ∈ ['.', '_', '-'] then c else '_'

/-- metadata.py `get_game_dir(metadata_root, game_key)`: the root's path
components extended with the sanitized key. -/
def get_game_dir (metadata_root : List Str) (game_key : Str) : List Str :=
  metadata_root ++ [safe_key game_key]

/-- A directory-to-contents map for the per-game `override.json` files; most
recent write first. -/
abbrev OverrideStore (α : Type) := List (List Str × α)

/-- metadata.py `save_override`: write this key's `override.json` under its
game directory. -/
def save_override {α : Type} (st : OverrideStore α) (metadata_root : List Str)
    (game_key : Str) (data : α) : OverrideStore α :=
  (get_game_dir metadata_root game_key, data) :: st

/-- metadata.py `load_override`: read this key's `override.json`, `none` when
the file is missing. -/
def load_override {α : Type} (st : OverrideStore α) (metadata_root : List Str)
    (game_key : Str) : Option α :=
  (st.find? fun p => decide (p.1 = get_game_dir metadata_root game_key)).map fun p => p.2

/-- The character class the claim names for `get_game_dir`:
`[A-Za-z0-9._-]`. -/
def isAllowedDirChar (c : Char) : Bool :=
  ('A' ≤ c && c ≤ 'Z') || ('a' ≤ c && c ≤ 'z') || ('0' ≤ c && c ≤ '9') ||
    c == '.' || c == '_' || c == '-'

/-! ## Concrete scenario inputs -/

/-- First volume of the spec's multi-volume scenario. -/
def partFile1 : FsFile := ⟨[], "Game.part01.rar".toList⟩

/-- Second volume of the spec's multi-volume scenario. -/
def partFile2 : FsFile := ⟨[], "Game.part02.rar".toList⟩

/-- Third volume of the spec's multi-volume scenario. -/
def partFile3 : FsFile := ⟨[], "Game.part03.rar".toList⟩

/-- The multi-volume scenario tree: three volumes of one archive group; every
volume's listing would contain a matching member, so an entry from a later
volume could only come from that volume actually being opened. -/
def partTree : FsTree :=
  { rootName := "Games".toList
    files := [partFile1, partFile2, partFile3]
    backend := true
    openRes := fun _ => some (some ["setup_game.exe".toList]) }

/-- The single entry the multi-volume scenario must produce. -/
def partEntry : InstallerEntry :=
  { key := "Game.part01.rar_setup_game.exe".toList
    path_type := "rar".toList
    fs_path := partFile1
    internal_path := some ("setup_game.exe".toList)
    display_name := "Game".toList }

/-- First of two same-named archives in distinct directories. -/
def dupFileA : FsFile := ⟨["A".toList], "game.rar".toList⟩

/-- Second of two same-named archives in distinct directories. -/
def dupFileB : FsFile := ⟨["B".toList], "game.rar".toList⟩

/-- Two single-volume archives with equal base names in different directories;
their listings hold distinguishable members. -/
def dupTree : FsTree :=
  { rootName := "root".toList
    files := [dupFileA, dupFileB]
    backend := true
    openRes := fun f =>
      if f = dupFileA then some (some ["setup_a.exe".toList])
      else some (some ["setup_b.exe".toList]) }

/-- The entry produced from the first same-named archive. -/
def dupEntryA : InstallerEntry :=
  { key := "A_game.rar_setup_a.exe".toList
    path_type := "rar".toList
    fs_path := dupFileA
    internal_path := some ("setup_a.exe".toList)
    display_name := "game".toList }

/-- A standalone entry for exercising the orchestrator. -/
def witnessEntry : InstallerEntry :=
  { key := "G_setup_g.exe".toList
    path_type := "file".toList
    fs_path := ⟨["G".toList], "setup_g.exe".toList⟩
    internal_path := none
    display_name := "G".toList }

/-- An orchestrator input whose only (added) key's metadata fetch raises. -/
def witnessEnv : ScanEnv :=
  { entries := [witnessEntry]
    prev_keys := []
    fetch := fun _ => FetchOutcome.exc ("boom".toList) }

/-! ## Helper lemmas -/

theorem dropWhile_head_not {p : Char → Bool} {l : Str} {x : Char} {xs : Str}
    (h : l.dropWhile p = x :: xs) : p x = false := by
  have h2 := List.head?_dropWhile_not p l
  rw [h] at h2
  simpa using h2

theorem pyStripWith_head?_not {p : Char → Bool} {l : Str} {x : Char}
    (h : (pyStripWith p l).head? = some x) : p x = false := by
  unfold pyStripWith at h
  cases hc : ((l.reverse.dropWhile p).reverse).dropWhile p with
  | nil => rw [hc] at h; simp at h
  | cons a as =>
    rw [hc] at h
    simp at h
    subst h
    exact dropWhile_head_not hc

theorem pyStripWith_getLast?_not {p : Char → Bool} {l : Str} {x : Char}
    (h : (pyStripWith p l).getLast? = some x) : p x = false := by
  unfold pyStripWith at h
  have hr : ((l.reverse.dropWhile p).reverse).dropWhile p ≠ [] := by
    intro hnil
    rw [hnil] at h
    simp at h
  have h1 : ((l.reverse.dropWhile p).reverse).getLast? = some x := by
    conv_lhs => rw [← List.takeWhile_append_dropWhile p ((l.reverse.dropWhile p).reverse)]
    rw [List.getLast?_append_of_ne_nil _ hr]
    exact h
  rw [List.getLast?_reverse] at h1
  have h2 := List.head?_dropWhile_not p l.reverse
  rw [h1] at h2
  simpa using h2

theorem pyStripWith_eq_nil {p : Char → Bool} {l : Str} (h : pyStripWith p l = []) :
    ∀ x ∈ l, p x = true := by
  unfold pyStripWith at h
  rw [List.dropWhile_eq_nil_iff] at h
  intro x hx
  have hx2 : x ∈ l.reverse := List.mem_reverse.mpr hx
  rw [← List.takeWhile_append_dropWhile p l.reverse] at hx2
  rcases List.mem_append.mp hx2 with h1 | h2
  · exact List.mem_takeWhile_imp h1
  · exact h x (List.mem_reverse.mpr h2)

theorem stripUnderscores_append_underscore (k : Str) :
    stripUnderscores (k ++ ['_']) = stripUnderscores k := by
  unfold stripUnderscores pyStripWith
  have h1 : (k ++ ['_']).reverse = '_' :: k.reverse := by simp
  rw [h1, List.dropWhile_cons_of_pos (by decide)]

theorem finishKey_append_underscore (k : Str) :
    finishKey (k ++ ['_']) = finishKey k := by
  unfold finishKey
  rw [stripUnderscores_append_underscore]

theorem finishKey_ok (l : Str) :
    finishKey l ≠ [] ∧ (finishKey l).head? ≠ some '_' ∧
      (finishKey l).getLast? ≠ some '_' := by
  unfold finishKey
  by_cases h : stripUnderscores l = []
  · rw [if_pos h]
    exact ⟨by decide, by decide, by decide⟩
  · rw [if_neg h]
    refine ⟨h, fun hh => ?_, fun hh => ?_⟩
    · exact absurd (pyStripWith_head?_not hh) (by decide)
    · exact absurd (pyStripWith_getLast?_not hh) (by decide)

theorem sanitize_key_eq_finishKey (rel : Str) (internal : Option Str) :
    ∃ K, sanitize_key rel internal = finishKey K :=
  ⟨_, rfl⟩

theorem pyReplaceChar_id (c : Char) : ∀ (s : Str), (∀ x ∈ s, x ≠ c) → pyReplaceChar c s = s := by
  intro s
  induction s with
  | nil => intro _; rfl
  | cons a as ih =>
    intro h
    have ha : a ≠ c := h a (by simp)
    calc pyReplaceChar c (a :: as) = a :: pyReplaceChar c as := by
          simp [pyReplaceChar, ha]
      _ = a :: as := by rw [ih fun x hx => h x (by simp [hx])]

theorem mem_pyReplaceChar {c x : Char} {s : Str} (h : x ∈ pyReplaceChar c s) :
    x = '_' ∨ x ∈ s := by
  unfold pyReplaceChar at h
  obtain ⟨a, ha, hax⟩ := List.mem_map.mp h
  by_cases hac : a = c
  · rw [if_pos hac] at hax
    exact Or.inl hax.symm
  · rw [if_neg hac] at hax
    exact Or.inr (hax ▸ ha)

theorem foldl_replace_eq_self : ∀ (cs : Str) (s : Str), (∀ x ∈ s, x ∉ cs) →
    cs.foldl (fun acc c => pyReplaceChar c acc) s = s := by
  intro cs
  induction cs with
  | nil => intro s _; rfl
  | cons c cs ih =>
    intro s h
    rw [List.foldl_cons]
    rw [pyReplaceChar_id c s fun x hx => fun hxc => h x hx (by simp [hxc])]
    exact ih s fun x hx => fun hxcs => h x hx (by simp [hxcs])

theorem sanitizeSeps_unreserved {s : Str} (h : ∀ c ∈ s, c ∉ reservedChars) :
    ∀ c ∈ sanitizeSeps s, c ∉ reservedChars := by
  intro c hc
  rcases mem_pyReplaceChar hc with h1 | h2
  · subst h1; decide
  · rcases mem_pyReplaceChar h2 with h3 | h4
    · subst h3; decide
    · exact h c h4

theorem sanitizeReserved_eq_of_unreserved {s : Str} (h : ∀ c ∈ s, c ∉ reservedChars) :
    sanitizeReserved s = s :=
  foldl_replace_eq_self reservedChars s h

/-! ## Claim theorems: the Identity Deriver -/

/-- Claim C1, counterexample: on the spec's own sanitization scenario —
relative path of the form Sub Dir\Weird:Name?.rar with inner path
a/b/setup_x.exe — the key produced by the source contains a space, which is
outside the character class the claim asserts for every key. -/
theorem sanitize_key_space_cex :
    ' ' ∈ sanitize_key ("Sub Dir\\Weird:Name?.rar".toList) (some ("a/b/setup_x.exe".toList)) ∧
    isAllowedKeyChar ' ' = false := by decide

/-- Claim C1, amended: for every relative path and optional inner path the
key is non-empty and carries no leading or trailing underscore, but it is not
restricted to the class A-Za-z0-9 dot underscore hyphen — characters such as
spaces pass through unchanged; the scenario input yields the stated key,
which contains a space. -/
theorem sanitize_key_shape (rel : Str) (internal : Option Str) :
    sanitize_key rel internal ≠ [] ∧
    (sanitize_key rel internal).head? ≠ some '_' ∧
    (sanitize_key rel internal).getLast? ≠ some '_' ∧
    sanitize_key ("Sub Dir\\Weird:Name?.rar".toList) (some ("a/b/setup_x.exe".toList)) =
      "Sub Dir_Weird_Name_.rar_a_b_setup_x.exe".toList := by
  obtain ⟨K, hK⟩ := sanitize_key_eq_finishKey rel internal
  rw [hK]
  obtain ⟨h1, h2, h3⟩ := finishKey_ok K
  exact ⟨h1, h2, h3, by decide⟩

/-- Claim C1 witness: the amended claim instantiated at the scenario input. -/
theorem sanitize_key_shape_witness :
    sanitize_key ("Sub Dir\\Weird:Name?.rar".toList) (some ("a/b/setup_x.exe".toList)) ≠ [] ∧
    (sanitize_key ("Sub Dir\\Weird:Name?.rar".toList)
      (some ("a/b/setup_x.exe".toList))).head? ≠ some '_' ∧
    (sanitize_key ("Sub Dir\\Weird:Name?.rar".toList)
      (some ("a/b/setup_x.exe".toList))).getLast? ≠ some '_' ∧
    sanitize_key ("Sub Dir\\Weird:Name?.rar".toList) (some ("a/b/setup_x.exe".toList)) =
      "Sub Dir_Weird_Name_.rar_a_b_setup_x.exe".toList :=
  sanitize_key_shape ("Sub Dir\\Weird:Name?.rar".toList) (some ("a/b/setup_x.exe".toList))

/-- Claim C2, counterexample: the source sanitizes the inner path only for
path separators, not for the reserved characters, so on relative path a with
inner path b:c it disagrees with the spec's reference algorithm. -/
theorem sanitize_key_inner_reserved_cex :
    sanitize_key ("a".toList) (some ("b:c".toList)) ≠
      deriveKey_spec ("a".toList) (some ("b:c".toList)) ∧
    sanitize_key ("a".toList) (some ("b:c".toList)) = "a_b:c".toList ∧
    deriveKey_spec ("a".toList) (some ("b:c".toList)) = "a_b_c".toList := by decide

/-- Claim C2, amended: the source agrees with the spec's reference algorithm
of section 4.1 whenever the inner path contains none of the reserved
characters; in general the inner path is sanitized only for path
separators. -/
theorem sanitize_key_matches_reference (rel : Str) (internal : Option Str)
    (h : innerUnreserved internal = true) :
    sanitize_key rel internal = deriveKey_spec rel internal := by
  cases internal with
  | none => rfl
  | some s =>
    simp only [innerUnreserved] at h
    have hs : ∀ c ∈ s, c ∉ reservedChars := by
      intro c hc
      have h2 := List.all_eq_true.mp h c hc
      simpa using h2
    by_cases hnil : s = []
    · subst hnil
      have h1 : sanitize_key rel (some []) = finishKey (sanitizeReserved (sanitizeSeps rel)) := by
        simp [sanitize_key]
      have e2 : sanitizeReserved (sanitizeSeps ([] : Str)) = [] := rfl
      have h2 : deriveKey_spec rel (some []) =
          finishKey (sanitizeReserved (sanitizeSeps rel) ++ ['_']) := by
        simp [deriveKey_spec, e2]
      rw [h1, h2, finishKey_append_underscore]
    · have h1 : sanitize_key rel (some s) =
          finishKey (sanitizeReserved (sanitizeSeps rel) ++ '_' :: sanitizeSeps s) := by
        simp [sanitize_key, hnil]
      have h2 : deriveKey_spec rel (some s) =
          finishKey (sanitizeReserved (sanitizeSeps rel) ++
            '_' :: sanitizeReserved (sanitizeSeps s)) := by
        simp [deriveKey_spec]
      rw [h1, h2, sanitizeReserved_eq_of_unreserved (sanitizeSeps_unreserved hs)]

/-- Claim C2 witness: the amended agreement at a concrete unreserved input. -/
theorem sanitize_key_matches_reference_witness :
    sanitize_key ("x".toList) (some ("y".toList)) =
      deriveKey_spec ("x".toList) (some ("y".toList)) :=
  sanitize_key_matches_reference ("x".toList) (some ("y".toList)) (by decide)

/-- Claim C8, counterexample: a standalone installer whose parent directory is
named by a single underscore gets the empty display name — the parent-name
branch of the source has no emptiness fallback, refuting "the standalone
display name is never the empty string". -/
theorem display_name_empty_cex :
    display_name_from_path ("_".toList) ("setup_a.exe".toList) none = [] := by decide

/-- Claim C8, amended: for a standalone installer the display name is the
parent directory name with underscores replaced by spaces and surrounding
whitespace stripped; it is nonempty whenever the parent name contains any
character besides underscores and whitespace, and when the parent has no name
the stem-based fallback with the final literal Unknown keeps it nonempty; but
a parent name consisting solely of underscores and whitespace yields the
empty string.  The path with parent My_Cool_Game yields My Cool Game. -/
theorem display_name_standalone (parentNm name : Str) :
    (parentNm.any (fun c => !(c == '_') && !(pyIsSpace c)) = true →
      display_name_from_path parentNm name none ≠ []) ∧
    (parentNm = [] → display_name_from_path parentNm name none ≠ []) ∧
    display_name_from_path ("My_Cool_Game".toList) ("setup_mycoolgame.exe".toList) none =
      "My Cool Game".toList := by
  refine ⟨?_, ?_, by decide⟩
  · intro h
    obtain ⟨c, hc, hcp⟩ := List.any_eq_true.mp h
    have hcu : c ≠ '_' := by
      intro he
      rw [he] at hcp
      simp at hcp
    have hcs : pyIsSpace c = false := by
      have h2 := (Bool.and_eq_true _ _).mp hcp
      simpa using h2.2
    have hpn : parentNm ≠ [] := by
      intro he
      rw [he] at hc
      simp at hc
    show display_direct parentNm name ≠ []
    unfold display_direct
    rw [if_pos hpn]
    intro hnil
    have hall := pyStripWith_eq_nil hnil
    have hmem : c ∈ underscoresToSpaces parentNm := by
      unfold underscoresToSpaces
      exact List.mem_map.mpr ⟨c, hc, by rw [if_neg hcu]⟩
    rw [hall c hmem] at hcs
    exact absurd hcs (by decide)
  · intro h
    subst h
    show display_direct [] name ≠ []
    unfold display_direct
    rw [if_neg (by simp)]
    by_cases hr : pyStrip (underscoresToSpaces (pyStem name)) = []
    · rw [if_pos hr]; decide
    · rw [if_neg hr]; exact hr

/-- Claim C8 witness: the amended claim at the spec's standalone-naming
scenario, hypotheses discharged by evaluation. -/
theorem display_name_standalone_witness :
    display_name_from_path ("My_Cool_Game".toList) ("setup_mycoolgame.exe".toList) none ≠ [] :=
  (display_name_standalone ("My_Cool_Game".toList) ("setup_mycoolgame.exe".toList)).1 (by decide)

/-! ## Claim theorems: the Discovery Engine -/

theorem mem_of_mem_dedupe_by_key (l : List InstallerEntry) :
    ∀ (seen : List Str) (e : InstallerEntry), e ∈ dedupe_by_key l seen → e ∈ l := by
  induction l with
  | nil => intro seen e h; simp [dedupe_by_key] at h
  | cons a as ih =>
    intro seen e h
    simp only [dedupe_by_key] at h
    split at h
    · exact List.mem_cons_of_mem _ (ih _ _ h)
    · rcases List.mem_cons.mp h with h1 | h2
      · exact h1 ▸ List.mem_cons_self _ _
      · exact List.mem_cons_of_mem _ (ih _ _ h2)

theorem scan_direct_fields (t : FsTree) (e : InstallerEntry) (h : e ∈ scan_direct t) :
    e.internal_path = none ∧ e.path_type = "file".toList := by
  unfold scan_direct at h
  obtain ⟨f, _, hfe⟩ := List.mem_filterMap.mp h
  by_cases hm : setupMatches f.name
  · rw [if_pos hm] at hfe
    injection hfe with h5
    subst h5
    exact ⟨rfl, rfl⟩
  · rw [if_neg hm] at hfe
    cases hfe

theorem scan_rar_fields (rootName : Str) (backend : Bool) (openRes : Option (Option (List Str)))
    (rar : FsFile) (e : InstallerEntry) (h : e ∈ scan_rar rootName backend openRes rar) :
    (∃ nm, e.internal_path = some nm) ∧ e.path_type = "rar".toList := by
  cases backend with
  | false => simp [scan_rar] at h
  | true =>
    cases openRes with
    | none => simp [scan_rar] at h
    | some o =>
      cases o with
      | none => simp [scan_rar] at h
      | some names =>
        simp only [scan_rar, Bool.not_true, Bool.false_eq_true, if_false] at h
        obtain ⟨nm, _, hsome⟩ := List.mem_filterMap.mp h
        unfold rarEntryOf at hsome
        by_cases hm : setupMatches (lastSegment nm)
        · rw [if_pos hm] at hsome
          injection hsome with h5
          subst h5
          exact ⟨⟨nm, rfl⟩, rfl⟩
        · rw [if_neg hm] at hsome
          cases hsome

theorem scan_rar_files_go_sub (t : FsTree) (fs : List FsFile) :
    ∀ (seen : List Str) (e : InstallerEntry), e ∈ scan_rar_files_go t fs seen →
      ∃ f, e ∈ scan_rar t.rootName t.backend (t.openRes f) f := by
  induction fs with
  | nil => intro seen e h; simp [scan_rar_files_go] at h
  | cons f fs ih =>
    intro seen e h
    simp only [scan_rar_files_go] at h
    split at h
    · split at h
      · split at h
        · exact ih _ _ h
        · rcases List.mem_append.mp h with h1 | h2
          · exact ⟨f, h1⟩
          · exact ih _ _ h2
      · exact ih _ _ h
    · exact ih _ _ h

/-- Claim C9: every entry discovery returns satisfies the container
invariant — the inner path is set exactly when the entry is archived; in
particular a standalone entry never carries an inner path. -/
theorem scan_entries_internal_iff_rar (t : FsTree) (e : InstallerEntry)
    (h : e ∈ scan_installers t) :
    e.internal_path ≠ none ↔ e.path_type = "rar".toList := by
  have h2 := mem_of_mem_dedupe_by_key _ _ _ h
  rcases List.mem_append.mp h2 with hd | hr
  · obtain ⟨h3, h4⟩ := scan_direct_fields t e hd
    constructor
    · intro hn
      exact absurd h3 hn
    · intro hp
      rw [h4] at hp
      exact absurd hp (by decide)
  · obtain ⟨f, hf⟩ := scan_rar_files_go_sub t t.files [] e hr
    obtain ⟨⟨nm, h3⟩, h4⟩ := scan_rar_fields _ _ _ _ _ hf
    constructor
    · intro _
      exact h4
    · intro _
      rw [h3]
      simp

/-- Claim C9 witness: the invariant at the concrete archived entry of the
multi-volume scenario. -/
theorem scan_entries_internal_iff_rar_witness :
    partEntry.internal_path ≠ none ↔ partEntry.path_type = "rar".toList :=
  scan_entries_internal_iff_rar partTree partEntry
    (by rw [show scan_installers partTree = [partEntry] from by decide]
        exact List.mem_cons_self _ _)

theorem processed_rars_go_first (fs : List FsFile) :
    ∀ (seen : List Str) (f : FsFile), f ∈ processed_rars_go fs seen →
      is_first_rar_part f.name = true := by
  induction fs with
  | nil => intro seen f h; simp [processed_rars_go] at h
  | cons g fs ih =>
    intro seen f h
    simp only [processed_rars_go] at h
    split at h
    · split at h
      next hfirst =>
        split at h
        · exact ih _ _ h
        · rcases List.mem_cons.mp h with h1 | h2
          · exact h1 ▸ hfirst
          · exact ih _ _ h2
      next => exact ih _ _ h
    · exact ih _ _ h

theorem processed_rars_go_bases (fs : List FsFile) :
    ∀ (seen : List Str),
      ((processed_rars_go fs seen).map fun f => strippedBase f.name).Nodup ∧
      ∀ b ∈ (processed_rars_go fs seen).map fun f => strippedBase f.name, b ∉ seen := by
  induction fs with
  | nil => intro seen; simp [processed_rars_go]
  | cons g fs ih =>
    intro seen
    simp only [processed_rars_go]
    split
    · split
      · split
        next hseen => exact ih seen
        next hseen =>
          obtain ⟨ihn, ihs⟩ := ih (strippedBase g.name :: seen)
          constructor
          · rw [List.map_cons]
            refine List.nodup_cons.mpr ⟨fun hmem => ?_, ihn⟩
            exact (ihs _ hmem) (List.mem_cons_self _ _)
          · intro b hb
            rw [List.map_cons] at hb
            rcases List.mem_cons.mp hb with h1 | h2
            · subst h1
              exact hseen
            · intro hbseen
              exact (ihs b h2) (List.mem_cons_of_mem _ hbseen)
      · exact ih seen
    · exact ih seen

/-- Claim C3: in every tree only first volumes are opened (every archive the
pass lists satisfies the first-volume predicate), and on the concrete
three-volume scenario the pass lists exactly the first volume and yields
exactly one archived entry for the group, even though every volume's listing
contains a matching member. -/
theorem rar_groups_first_volume_only :
    (∀ (t : FsTree), ∀ f ∈ processed_rars t, is_first_rar_part f.name = true) ∧
    processed_rars partTree = [partFile1] ∧
    scan_installers partTree = [partEntry] := by
  refine ⟨?_, by decide, by decide⟩
  intro t f h
  exact processed_rars_go_first t.files [] f h

/-- Claim C3 witness: the general conjunct applied at the scenario's first
volume. -/
theorem rar_groups_first_volume_only_witness : is_first_rar_part partFile1.name = true :=
  rar_groups_first_volume_only.1 partTree partFile1
    (by rw [show processed_rars partTree = [partFile1] from by decide]
        exact List.mem_cons_self _ _)

/-- Claim C4: the listed archives of a pass have pairwise distinct
volume-suffix-stripped base names — the de-duplication key carries no
directory information — and on the concrete scenario of two same-named
single-volume archives in distinct directories only the first in traversal
order is listed, and only its member reaches the result. -/
theorem rar_group_dedupe_by_base :
    (∀ t : FsTree, ((processed_rars t).map fun f => strippedBase f.name).Nodup) ∧
    strippedBase dupFileA.name = strippedBase dupFileB.name ∧
    dupFileA.dir ≠ dupFileB.dir ∧
    processed_rars dupTree = [dupFileA] ∧
    scan_installers dupTree = [dupEntryA] := by
  refine ⟨?_, by decide, by decide, by decide, by decide⟩
  intro t
  exact (processed_rars_go_bases t.files []).1

/-- Claim C4 witness: the general conjunct applied at the duplicate-base
scenario tree. -/
theorem rar_group_dedupe_by_base_witness :
    ((processed_rars dupTree).map fun f => strippedBase f.name).Nodup :=
  rar_group_dedupe_by_base.1 dupTree

/-! ## Claim theorems: the Archive Lister's soft failure -/

/-- Claim C7: listing an archive degrades to the empty sequence — never an
error, never a partial listing — when the backend is unavailable, when
opening raises, or when enumerating the member names raises.  Totality of
`scan_rar` models that nothing propagates across the boundary. -/
theorem scan_rar_soft_failure (rootName : Str) (backend : Bool)
    (openRes : Option (Option (List Str))) (rar : FsFile)
    (h : backend = false ∨ openRes = none ∨ openRes = some none) :
    scan_rar rootName backend openRes rar = [] := by
  rcases h with h | h | h
  · subst h; rfl
  · subst h; cases backend <;> rfl
  · subst h; cases backend <;> rfl

/-- Claim C7 witness: a missing backend yields the empty listing even for an
archive whose open would have succeeded with matching members. -/
theorem scan_rar_soft_failure_witness :
    scan_rar ("Games".toList) false (some (some ["setup_game.exe".toList])) partFile1 = [] :=
  scan_rar_soft_failure ("Games".toList) false (some (some ["setup_game.exe".toList]))
    partFile1 (Or.inl rfl)

/-! ## Claim theorems: the Scan Orchestrator and the Differ -/

theorem run_added_loop_errors (fetch : Str → FetchOutcome) (l : List InstallerEntry) :
    ∀ e ∈ l,
      (fetch e.key = FetchOutcome.noMatch →
        ScanError.noMatch e.key ∈ (run_added_loop fetch l).2.1) ∧
      (∀ m, fetch e.key = FetchOutcome.exc m →
        ScanError.failed e.key m ∈ (run_added_loop fetch l).2.1) := by
  induction l with
  | nil => intro e h; simp at h
  | cons a as ih =>
    intro e he
    simp only [run_added_loop]
    rcases List.mem_cons.mp he with h1 | h2
    · subst h1
      constructor
      · intro hf
        refine List.mem_append.mpr (Or.inl ?_)
        simp [step_added, hf]
      · intro m hf
        refine List.mem_append.mpr (Or.inl ?_)
        simp [step_added, hf]
    · constructor
      · intro hf
        exact List.mem_append.mpr (Or.inr ((ih e h2).1 hf))
      · intro m hf
        exact List.mem_append.mpr (Or.inr ((ih e h2).2 m hf))

/-- Claim C5: whatever each added key's fetch outcome is, the persisted
snapshot's key set equals exactly the discovered key set, the key's override
bookkeeping is still saved, and a fetch failure — no match or exception — is
recorded in the error list while the remaining keys are still processed (the
statement quantifies over every added key of the run). -/
theorem run_scan_props (env : ScanEnv) :
    (run_scan env).snapshot_keys.toFinset = (env.entries.map fun e => e.key).toFinset ∧
    ∀ k ∈ added_keys env, ∀ e, entry_by_key env.entries k = some e →
      (k ∈ (run_scan env).overrides_saved ∧
       (env.fetch k = FetchOutcome.noMatch →
         ScanError.noMatch k ∈ (run_scan env).errors) ∧
       ∀ m, env.fetch k = FetchOutcome.exc m →
         ScanError.failed k m ∈ (run_scan env).errors) := by
  constructor
  · show (current_keys env).toFinset = _
    unfold current_keys
    ext a
    simp [List.mem_toFinset, List.mem_dedup]
  · intro k hk e he
    have hek : e.key = k := by
      have h3 := List.find?_some (by unfold entry_by_key at he; exact he)
      simpa using h3
    have hmem : e ∈ added_entries env := List.mem_filterMap.mpr ⟨k, hk, he⟩
    refine ⟨?_, ?_, ?_⟩
    · show k ∈ (run_added_loop env.fetch (added_entries env)).2.2 ++
        (current_keys env).filter fun k => (entry_by_key env.entries k).isSome
      refine List.mem_append.mpr (Or.inr ?_)
      refine List.mem_filter.mpr ⟨?_, ?_⟩
      · exact (List.mem_filter.mp hk).1
      · simp [he]
    · intro hf
      have h2 := (run_added_loop_errors env.fetch (added_entries env) e hmem).1
      rw [hek] at h2
      exact h2 hf
    · intro m hf
      have h2 := (run_added_loop_errors env.fetch (added_entries env) e hmem).2 m
      rw [hek] at h2
      exact h2 hf

/-- Claim C5 witness: on a run whose only added key's fetch raises, the
override is still saved and the failure is recorded. -/
theorem run_scan_props_witness :
    witnessEntry.key ∈ (run_scan witnessEnv).overrides_saved ∧
    ScanError.failed witnessEntry.key ("boom".toList) ∈ (run_scan witnessEnv).errors := by
  have h := (run_scan_props witnessEnv).2 witnessEntry.key (by decide) witnessEntry (by decide)
  exact ⟨h.1, h.2.2 ("boom".toList) (by decide)⟩

/-- Claim C6: the Snapshot Differ is the pair of plain set differences, with
the stated consequences on equal sets, an empty previous set, and an empty
current set; as a Lean function it is pure and total by construction. -/
theorem diff_is_set_difference (A B : Finset Str) :
    diff A B = (A \ B, B \ A) ∧
    diff A A = (∅, ∅) ∧ diff A ∅ = (A, ∅) ∧ diff ∅ B = (∅, B) := by
  refine ⟨rfl, ?_, ?_, ?_⟩ <;> simp [diff, Prod.ext_iff]

/-- Claim C6 witness: the differ's contract at concrete empty sets. -/
theorem diff_is_set_difference_witness :
    diff (∅ : Finset Str) ∅ = (∅ \ ∅, ∅ \ ∅) ∧
    diff (∅ : Finset Str) ∅ = (∅, ∅) ∧
    diff (∅ : Finset Str) ∅ = (∅, ∅) ∧
    diff (∅ : Finset Str) ∅ = (∅, ∅) :=
  diff_is_set_difference ∅ ∅

/-! ## Claim theorems: the metadata store -/

/-- Claim C10: `get_game_dir` sanitizes the key into the directory name, and
the sanitization is not injective — the keys a b and a_b differ yet share a
game directory, so saving an override for one is loaded back for the other. -/
theorem get_game_dir_collision :
    ("a b".toList ≠ "a_b".toList) ∧
    safe_key ("a b".toList) = "a_b".toList ∧
    safe_key ("a_b".toList) = "a_b".toList ∧
    (∀ root : List Str, get_game_dir root ("a b".toList) = get_game_dir root ("a_b".toList)) ∧
    (∀ (α : Type) (st : OverrideStore α) (root : List Str) (d : α),
      load_override (save_override st root ("a b".toList) d) root ("a_b".toList) = some d) := by
  have hsk : safe_key ("a b".toList) = safe_key ("a_b".toList) := by decide
  refine ⟨by decide, by decide, by decide, ?_, ?_⟩
  · intro root
    unfold get_game_dir
    rw [hsk]
  · intro α st root d
    unfold load_override save_override get_game_dir
    rw [hsk]
    simp [List.find?]

/-- Claim C10 witness: the cross-key overwrite at a concrete store. -/
theorem get_game_dir_collision_witness :
    load_override (save_override ([] : OverrideStore Nat) [("m".toList : Str)]
      ("a b".toList) 7) [("m".toList : Str)] ("a_b".toList) = some 7 :=
  get_game_dir_collision.2.2.2.2 Nat [] [("m".toList : Str)] 7

end GogBrowser
